import Mathlib

/-!
Verification of the source-function discovery and packaging pipeline of the
exobase-pulumi repository (packages aws-lambda-api, aws-s3-static-website,
aws-code-build).

The TypeScript sources are shallowly embedded: JavaScript strings are modelled
as Lean `String` (a sequence of characters), JavaScript string primitives
(`slice`, `replace`, `endsWith`) are given their ECMAScript semantics, the
filesystem listing consumed by discovery is modelled as explicit data, and the
shell commands executed by the bundle builders are modelled through an
exit-code oracle together with an explicit trace of the performed steps.
-/

namespace ExobasePulumi

/-- ECMAScript `String.prototype.slice(start, end)`: a negative index counts
from the end of the string (it is clamped at 0), a positive index is clamped
at the length, and the characters in the half-open range are returned. -/
def jsSlice (s : String) (start stop : Int) : String :=
  String.mk
    ((s.data.take
        (if stop < 0 then max ((s.data.length : Int) + stop) 0
         else min stop (s.data.length : Int)).toNat).drop
      (if start < 0 then max ((s.data.length : Int) + start) 0
       else min start (s.data.length : Int)).toNat)

/-- The name-truncation helper `lambdaName` of `AWSLambdaAPI`
(packages/aws-lambda-api/index.ts lines 52-57 and the unnamed variant lines
53-58).  The source first assembles `n = _.dashCase(name-module-func)`;
`_.dashCase` comes from the external radash library, so the helper is
modelled on the already assembled, dash-cased name `n`:
`n.length > 56 ? n.slice(0, 56 - n.length) : n`. -/
def lambdaName (n : String) : String :=
  if n.length > 56 then jsSlice n 0 (56 - (n.length : Int)) else n

/-- ECMAScript string search-and-replace on character lists:
`replaceFirstAux pat rep s` replaces the first occurrence of `pat` in `s`
by `rep` and leaves `s` unchanged when `pat` does not occur.  This is the
semantics of `String.prototype.replace` with a string (non-regexp) pattern,
which replaces only the FIRST occurrence. -/
def replaceFirstAux (pat rep : List Char) : List Char → List Char
  | [] => if pat.isEmpty then rep else []
  | c :: rest =>
    if pat.isPrefixOf (c :: rest) then rep ++ (c :: rest).drop pat.length
    else c :: replaceFirstAux pat rep rest

/-- ECMAScript `String.prototype.replace(pat, rep)` for a plain string
pattern: only the first occurrence of `pat` is replaced. -/
def jsReplaceFirst (s pat rep : String) : String :=
  String.mk (replaceFirstAux pat.data rep.data s.data)

/-- ECMAScript `String.prototype.endsWith(pat)`: the last `pat.length`
characters of the string equal `pat`. -/
def jsEndsWith (s pat : String) : Bool :=
  pat.data.isSuffixOf s.data

/-- One entry of a `fs.readdirSync(dir, \x7b withFileTypes: true \x7d)` listing:
a name together with the result of `isDirectory()`. -/
structure Dirent where
  name : String
  isDir : Bool
deriving DecidableEq, Repr

/-- The `paths` component of a discovered `ModuleFunction`
(packages/aws-lambda-api/index.ts lines 253-260).  The source field `import`
is a Lean keyword, so it is named `importPath` here (the spec's name for it). -/
structure ModulePaths where
  file : String
  importPath : String
deriving DecidableEq, Repr

/-- A discovered module function (packages/aws-lambda-api/index.ts lines
253-260). -/
structure ModuleFunction where
  function : String
  module : String
  paths : ModulePaths
deriving DecidableEq, Repr

/-- Filesystem errors surfaced by discovery.  `fs.readdirSync` on a missing
directory throws ENOENT ("no such file or directory"), the spec's
`NotFoundError`. -/
inductive FsError where
  | notFound
deriving DecidableEq, Repr

/-- The directory listings consumed by `getFunctionMap`: the listing of
`rootPath/src/modules` (`none` when that directory does not exist, in which
case `readdirSync` throws), and for each module name the listing of
`rootPath/src/modules/name`.  A module directory listed in the root exists,
so its own listing is modelled as total. -/
structure ModulesFS where
  root : Option (List Dirent)
  sub : String → List Dirent

/-- Models Node's `path.join(rootPath, rel)` for the arguments the source
passes: every `rel` starts with a single slash, so the join is plain
concatenation. -/
def relPath (rootPath rel : String) : String :=
  rootPath ++ rel

/-- The discovery function `getFunctionMap` (packages/aws-lambda-api/index.ts
lines 267-294): list `rootPath/src/modules`, keep directories; for each
module directory list its entries, drop directories, keep names ending in
`. + ext`; the function name is `tsFile.name.replace('.' + ext, '')` (a
first-occurrence replace); flatten with radash `_.flat`. -/
def getFunctionMap (fs : ModulesFS) (rootPath ext : String) :
    Except FsError (List ModuleFunction) :=
  match fs.root with
  | none => Except.error FsError.notFound
  | some entries =>
    Except.ok (List.flatten
      ((entries.filter (fun item => item.isDir)).map (fun m =>
        (((fs.sub m.name).filter (fun item => !item.isDir)).filter
            (fun item => jsEndsWith item.name ("." ++ ext))).map (fun tsFile =>
          { function := jsReplaceFirst tsFile.name ("." ++ ext) ""
            module := m.name
            paths :=
              { file := relPath rootPath
                  ("/src/modules/" ++ m.name ++ "/" ++ tsFile.name)
                importPath := relPath rootPath
                  ("/src/modules/" ++ m.name ++ "/" ++
                    jsReplaceFirst tsFile.name ("." ++ ext) "") } }))))

/-- One route passed to the API gateway (packages/aws-lambda-api/index.ts
lines 154-161 and the unnamed variant lines 142-149).  The source also
attaches `eventHandler: lambda.lambda`, the cloud resource object, which is
external to this model. -/
structure RouteEntry where
  path : String
  method : String
deriving DecidableEq, Repr

/-- The route table built by `AWSLambdaAPI`: one route per discovered
function, in order, with path `/module/function` and method ANY (the API
gateway wildcard matching any HTTP method). -/
def apiRoutes (functions : List ModuleFunction) : List RouteEntry :=
  functions.map (fun func =>
    { path := "/" ++ func.module ++ "/" ++ func.function
      method := "ANY" })

/-- A JavaScript object with string values, as a partial map from keys. -/
def JsObj : Type := String → Option String

/-- Adding the property `k: v` to a JavaScript object literal after spreading
`o`: a later property overrides a spread-in one with the same key. -/
def objAssign (o : JsObj) (k v : String) : JsObj :=
  fun q => if q = k then some v else o q

/-- The environment block of the lambda created for one discovered function
(src/unnamed/part_000 lines 118-124): the object literal spreads
`args.environmentVariables` and then sets `EXOBASE_MODULE` and
`EXOBASE_FUNCTION`. -/
def lambdaEnvironment (environmentVariables : JsObj) (func : ModuleFunction) : JsObj :=
  objAssign
    (objAssign environmentVariables "EXOBASE_MODULE" func.module)
    "EXOBASE_FUNCTION" func.function

/-- The environments of the lambdas created by the unnamed `AWSLambdaAPI`
variant (src/unnamed/part_000 lines 108-135): one per entry of
`args.functions`, in order. -/
def lambdaEnvironments (environmentVariables : JsObj) (functions : List ModuleFunction) :
    List JsObj :=
  functions.map (fun func => lambdaEnvironment environmentVariables func)

/-- Error raised by the bundle builders.  Modelled from the spec: the error
value produced by the external cmdish library for a failed shell command is
not part of this repository; per the spec it carries the command text and
the exit status (`BuildCommandError`). -/
inductive BuildError where
  | buildCommandError (command : String) (exitStatus : Nat)
deriving DecidableEq, Repr

/-- One side-effecting step performed by a bundle builder, recorded in order
of execution. -/
inductive Step where
  | copy (src dst : String)
  | readFile (p : String)
  | writeFile (p content : String)
  | run (command cwd : String)
deriving DecidableEq, Repr

/-- The outcome oracle for shell commands: `exitCode command cwd` is the exit
status the command would produce (0 = success).  cmdish resolves with a
tuple whose first component is non-null exactly on a non-zero exit; it never
rejects the promise. -/
structure CmdEnv where
  exitCode : String → String → Nat

/-- The build command of `buildTypescriptLambdaZip`
(packages/aws-lambda-api/index.ts lines 230-236), selected by the
`USE_NVM` environment toggle. -/
def tsBuildCommand (useNvm : Bool) : String :=
  if useNvm then
    "source ~/.nvm/nvm.sh && nvm use && yarn && yarn build && cd build && yarn --prod"
  else
    "yarn && yarn build && cd build && yarn --prod"

/-- The archiving command `zip -q -r zipPath *`. -/
def zipCommand (zip : String) : String :=
  "zip -q -r " ++ zip ++ " *"

/-- The bundle builder `buildTypescriptLambdaZip`
(packages/aws-lambda-api/index.ts lines 214-244): copy package.json into
build/, run the build command (destructuring the cmdish error and throwing
it on failure, so the zip step is never reached), then run the zip command
WITHOUT consulting its result, and return the zip path.  The value is the
thrown-or-returned outcome together with the trace of performed steps. -/
def buildTypescriptLambdaZip (env : CmdEnv) (useNvm : Bool) (root : String) :
    Except BuildError String × List Step :=
  if env.exitCode (tsBuildCommand useNvm) root ≠ 0 then
    (Except.error
      (BuildError.buildCommandError (tsBuildCommand useNvm)
        (env.exitCode (tsBuildCommand useNvm) root)),
     [Step.copy (root ++ "/package.json") (root ++ "/build" ++ "/package.json"),
      Step.run (tsBuildCommand useNvm) root])
  else
    (Except.ok (root ++ "/aws-lambda-api.zip"),
     [Step.copy (root ++ "/package.json") (root ++ "/build" ++ "/package.json"),
      Step.run (tsBuildCommand useNvm) root,
      Step.run (zipCommand (root ++ "/aws-lambda-api.zip")) (root ++ "/build")])

set_option linter.unusedVariables false in
/-- The site builder `buildSiteDistributionFolder`
(packages/aws-s3-static-website/index.ts lines 233-266): run the (nvm
prefixed) pre-build command when non-empty, then the build command when
non-empty.  The cmdish results are NOT destructured and never thrown, so
the builder completes regardless of the exit statuses `env` assigns. -/
def buildSiteDistributionFolder (env : CmdEnv) (useNvm : Bool)
    (sourceDir preBuildCommand buildCommand : String) :
    Except BuildError Unit × List Step :=
  (Except.ok (),
    (if preBuildCommand ≠ "" then
      [Step.run ((if useNvm then "source ~/.nvm/nvm.sh && nvm use && " else "") ++
        preBuildCommand) sourceDir]
     else []) ++
    (if buildCommand ≠ "" then
      [Step.run ((if useNvm then "source ~/.nvm/nvm.sh && nvm use && " else "") ++
        buildCommand) sourceDir]
     else []))

set_option linter.unusedVariables false in
/-- The source archiver `buildSourceZip` (packages/aws-code-build/index.ts
lines 173-192): read the buildspec template (its content is the `template`
argument of the model), substitute the build command for the first
occurrence of the placeholder, write the result, run the zip command
WITHOUT consulting its result, and return the zip path. -/
def buildSourceZip (env : CmdEnv) (dirname template sourceDir buildCommand : String) :
    Except BuildError String × List Step :=
  (Except.ok (sourceDir ++ "/source.zip"),
   [Step.readFile (dirname ++ "/buildspec.yml"),
    Step.writeFile (dirname ++ "/source/buildspec.yml")
      (jsReplaceFirst template "\x7b\x7bcommand\x7d\x7d" buildCommand),
    Step.run (zipCommand (sourceDir ++ "/source.zip")) sourceDir])

/-- The files of module directory `m` kept by discovery: the non-directory
entries of its listing whose name ends with `. + ext` (the two filters of
`getFunctionMap`). -/
def matchingFiles (sub : String → List Dirent) (ext m : String) : List Dirent :=
  ((sub m).filter (fun item => !item.isDir)).filter
    (fun item => jsEndsWith item.name ("." ++ ext))

/-- The `ModuleFunction` record `getFunctionMap` emits for file `fname` of
module `mname`. -/
def discoveredEntry (rootPath ext mname fname : String) : ModuleFunction :=
  { function := jsReplaceFirst fname ("." ++ ext) ""
    module := mname
    paths :=
      { file := relPath rootPath ("/src/modules/" ++ mname ++ "/" ++ fname)
        importPath := relPath rootPath
          ("/src/modules/" ++ mname ++ "/" ++ jsReplaceFirst fname ("." ++ ext) "") } }

theorem string_length_eq_data_length (s : String) : s.length = s.data.length := by
  cases s
  rfl

/-- C1: the truncation helper returns the name unchanged when its length is at
most 56 = 64 - 8 (ceiling 64 minus one dash and seven random characters), and
returns exactly the first 56 characters when the length exceeds 56.  The
helper is a pure function of the name, so the result is deterministic. -/
theorem c1_lambdaName_truncation (n : String) :
    (n.length ≤ 56 → lambdaName n = n) ∧
    (n.length > 56 → (lambdaName n).data = n.data.take 56) := by
  constructor
  · intro h
    unfold lambdaName
    rw [if_neg (by omega)]
  · intro h
    have hl : n.length = n.data.length := string_length_eq_data_length n
    unfold lambdaName
    rw [if_pos h]
    unfold jsSlice
    have h1 : ¬ ((0 : Int) < 0) := by omega
    have h2 : 56 - (n.length : Int) < 0 := by omega
    rw [if_pos h2, if_neg h1]
    have hb : (min (0 : Int) (n.data.length : Int)).toNat = 0 := by omega
    have he : (max ((n.data.length : Int) + (56 - (n.length : Int))) 0).toNat = 56 := by
      omega
    rw [hb, he, List.drop_zero]

/-- Concrete instance of C1: a 70-character name is truncated to its first 56
characters, and a short name is returned unchanged. -/
theorem c1_lambdaName_truncation_witness :
    lambdaName "my-api" = "my-api" ∧
    (lambdaName "a123456789b123456789c123456789d123456789e123456789f123456789g12345678").data =
      "a123456789b123456789c123456789d123456789e123456789f123456789g12345678".data.take 56 :=
  ⟨(c1_lambdaName_truncation "my-api").1 (by decide),
   (c1_lambdaName_truncation
     "a123456789b123456789c123456789d123456789e123456789f123456789g12345678").2 (by decide)⟩

theorem getFunctionMap_some (sub : String → List Dirent) (entries : List Dirent)
    (rootPath ext : String) :
    getFunctionMap { root := some entries, sub := sub } rootPath ext =
      Except.ok (((entries.filter (fun item => item.isDir)).map (fun m =>
        (matchingFiles sub ext m.name).map
          (fun tsFile => discoveredEntry rootPath ext m.name tsFile.name))).flatten) :=
  rfl

/-- C6: discovery on a root whose modules directory does not exist fails with
the not-found error (readdirSync throws ENOENT) instead of returning a
result. -/
theorem c6_missing_modules_root (sub : String → List Dirent) (rootPath ext : String) :
    getFunctionMap { root := none, sub := sub } rootPath ext =
      Except.error FsError.notFound :=
  rfl

/-- C7: discovery of a modules root with zero entries succeeds with the empty
sequence, and a module directory with zero matching files contributes
nothing: deleting it from the root listing does not change the (successful)
result. -/
theorem c7_empty_cases (sub : String → List Dirent) (rootPath ext : String) :
    (getFunctionMap { root := some [], sub := sub } rootPath ext = Except.ok []) ∧
    (∀ (pre post : List Dirent) (mdir : Dirent), mdir.isDir = true →
      matchingFiles sub ext mdir.name = [] →
      getFunctionMap { root := some (pre ++ mdir :: post), sub := sub } rootPath ext =
        getFunctionMap { root := some (pre ++ post), sub := sub } rootPath ext) := by
  constructor
  · rfl
  · intro pre post mdir hdir hempty
    rw [getFunctionMap_some, getFunctionMap_some]
    congr 1
    simp [List.filter_append, List.filter_cons, hdir, hempty]

/-- Concrete instance of C7: a stray empty module directory next to a
populated one contributes nothing. -/
theorem c7_empty_cases_witness :
    getFunctionMap
        { root := some [⟨"empty", true⟩, ⟨"users", true⟩],
          sub := fun m => if m = "users" then [⟨"create.ts", false⟩] else [] }
        "/r" "ts" =
      getFunctionMap
        { root := some [⟨"users", true⟩],
          sub := fun m => if m = "users" then [⟨"create.ts", false⟩] else [] }
        "/r" "ts" :=
  (c7_empty_cases (fun m => if m = "users" then [⟨"create.ts", false⟩] else [])
      "/r" "ts").2 [] [⟨"users", true⟩] ⟨"empty", true⟩ (by decide) (by decide)

/-- C8: the API gateway receives exactly one route per discovered function, in
the input order, with path /module/function and the method wildcard ANY. -/
theorem c8_route_projection (functions : List ModuleFunction) :
    (apiRoutes functions).length = functions.length ∧
    (∀ (i : Nat) (func : ModuleFunction), functions[i]? = some func →
      (apiRoutes functions)[i]? =
        some { path := "/" ++ func.module ++ "/" ++ func.function, method := "ANY" }) := by
  constructor
  · simp [apiRoutes]
  · intro i func h
    simp [apiRoutes, List.getElem?_map, h]

/-- Concrete instance of C8: the function create of module users is routed at
/users/create with method ANY. -/
theorem c8_route_projection_witness :
    (apiRoutes
        [{ function := "create", module := "users",
           paths := { file := "/r/src/modules/users/create.ts",
                      importPath := "/r/src/modules/users/create" } }])[0]? =
      some { path := "/users/create", method := "ANY" } := by
  have h := (c8_route_projection
      [{ function := "create", module := "users",
         paths := { file := "/r/src/modules/users/create.ts",
                    importPath := "/r/src/modules/users/create" } }]).2 0
      { function := "create", module := "users",
        paths := { file := "/r/src/modules/users/create.ts",
                   importPath := "/r/src/modules/users/create" } } rfl
  exact h

/-- C10: each created lambda's environment contains every caller-supplied
variable, plus EXOBASE_MODULE and EXOBASE_FUNCTION set to the function's
module and name; the injected values override caller-supplied variables of
the same name (the object literal sets them after spreading the caller's
object). -/
theorem c10_lambda_environment (environmentVariables : JsObj)
    (functions : List ModuleFunction) :
    (lambdaEnvironments environmentVariables functions).length = functions.length ∧
    (∀ (i : Nat) (func : ModuleFunction), functions[i]? = some func →
      ∃ envv, (lambdaEnvironments environmentVariables functions)[i]? = some envv ∧
        envv "EXOBASE_MODULE" = some func.module ∧
        envv "EXOBASE_FUNCTION" = some func.function ∧
        ∀ k, k ≠ "EXOBASE_MODULE" → k ≠ "EXOBASE_FUNCTION" →
          envv k = environmentVariables k) := by
  constructor
  · simp [lambdaEnvironments]
  · intro i func h
    refine ⟨lambdaEnvironment environmentVariables func, ?_, ?_, ?_, ?_⟩
    · simp [lambdaEnvironments, List.getElem?_map, h]
    · simp [lambdaEnvironment, objAssign]
    · simp [lambdaEnvironment, objAssign]
    · intro k h1 h2
      simp [lambdaEnvironment, objAssign, h1, h2]

/-- Concrete instance of C10: a caller-supplied EXOBASE_MODULE is overridden
by the injected module name, while an unrelated caller variable survives. -/
theorem c10_lambda_environment_witness :
    ∃ envv,
      (lambdaEnvironments
          (fun k => if k = "EXOBASE_MODULE" then some "caller-value"
            else if k = "LOG_LEVEL" then some "debug" else none)
          [{ function := "create", module := "users",
             paths := { file := "f", importPath := "i" } }])[0]? = some envv ∧
      envv "EXOBASE_MODULE" = some "users" ∧
      envv "EXOBASE_FUNCTION" = some "create" ∧
      envv "LOG_LEVEL" = some "debug" := by
  obtain ⟨envv, h0, h1, h2, h3⟩ :=
    (c10_lambda_environment
      (fun k => if k = "EXOBASE_MODULE" then some "caller-value"
        else if k = "LOG_LEVEL" then some "debug" else none)
      [{ function := "create", module := "users",
         paths := { file := "f", importPath := "i" } }]).2 0 _ rfl
  refine ⟨envv, h0, h1, h2, ?_⟩
  rw [h3 "LOG_LEVEL" (by decide) (by decide)]
  rfl

theorem replaceFirstAux_strips_suffix (pat pre : List Char)
    (h : ∀ i, i < pre.length → pat.isPrefixOf ((pre ++ pat).drop i) = false) :
    replaceFirstAux pat [] (pre ++ pat) = pre := by
  induction pre with
  | nil =>
    cases pat with
    | nil => rfl
    | cons c cs =>
      show replaceFirstAux (c :: cs) [] (c :: cs) = []
      simp only [replaceFirstAux]
      simp [List.isPrefixOf_iff_prefix, List.drop_length]
  | cons a pre ih =>
    have h0 := h 0 (Nat.succ_pos _)
    rw [List.drop_zero] at h0
    simp only [List.cons_append] at h0
    show replaceFirstAux pat [] (a :: (pre ++ pat)) = a :: pre
    simp only [replaceFirstAux]
    rw [h0]
    simp only [Bool.false_eq_true, if_false]
    congr 1
    refine ih (fun i hi => ?_)
    have := h (i + 1) (by simpa using Nat.succ_lt_succ hi)
    simpa using this

/-- C2 fails as stated: the source computes the function name with
tsFile.name.replace('.' + ext, ''), and a JavaScript string replace removes
the FIRST occurrence, not the final suffix.  For the kept file a.tsx.ts with
extension ts the emitted function field is ax.ts, not the suffix-stripped
a.tsx. -/
theorem c2_counterexample :
    jsEndsWith "a.tsx.ts" ".ts" = true ∧
    getFunctionMap
        { root := some [⟨"m", true⟩], sub := fun _ => [⟨"a.tsx.ts", false⟩] }
        "/r" "ts" =
      Except.ok
        [{ function := "ax.ts", module := "m",
           paths := { file := "/r/src/modules/m/a.tsx.ts",
                      importPath := "/r/src/modules/m/ax.ts" } }] ∧
    ("ax.ts" : String) ≠ "a.tsx" := by
  refine ⟨by decide, rfl, by decide⟩

/-- C2 (amended): for every file kept by discovery the emitted function field
equals the file name with the FIRST occurrence of . + extension removed
(JavaScript replace semantics); this coincides with stripping the final
suffix exactly when no earlier occurrence exists, i.e. when the first
occurrence of . + extension in the name is its final suffix. -/
theorem c2_function_from_first_occurrence (sub : String → List Dirent)
    (entries : List Dirent) (rootPath ext : String) :
    (∃ l, getFunctionMap { root := some entries, sub := sub } rootPath ext = Except.ok l ∧
      ∀ mf ∈ l, ∃ m f, (m ∈ entries ∧ m.isDir = true) ∧
        f ∈ matchingFiles sub ext m.name ∧
        mf.module = m.name ∧
        mf.function = jsReplaceFirst f.name ("." ++ ext) "") ∧
    (∀ (fname : String) (pre : List Char),
      fname.data = pre ++ ("." ++ ext).data →
      (∀ i, i < pre.length → ("." ++ ext).data.isPrefixOf (fname.data.drop i) = false) →
      (jsReplaceFirst fname ("." ++ ext) "").data = pre) := by
  constructor
  · refine ⟨_, getFunctionMap_some sub entries rootPath ext, ?_⟩
    intro mf hmf
    rw [List.mem_flatten] at hmf
    obtain ⟨inner, hinner, hmem⟩ := hmf
    rw [List.mem_map] at hinner
    obtain ⟨m, hm, rfl⟩ := hinner
    rw [List.mem_map] at hmem
    obtain ⟨f, hf, rfl⟩ := hmem
    rw [List.mem_filter] at hm
    exact ⟨m, f, hm, hf, rfl, rfl⟩
  · intro fname pre hdecomp h
    show (replaceFirstAux ("." ++ ext).data [] fname.data) = pre
    rw [hdecomp]
    refine replaceFirstAux_strips_suffix _ _ (fun i hi => ?_)
    have := h i hi
    rwa [hdecomp] at this

/-- Concrete instance of C2 (amended): for create.ts with extension ts the
first occurrence of .ts is the final suffix, so the function name is create;
the kept file is reported with that function field. -/
theorem c2_function_from_first_occurrence_witness :
    (jsReplaceFirst "create.ts" ".ts" "").data = "create".data := by
  have h := (c2_function_from_first_occurrence
      (fun _ => [⟨"create.ts", false⟩]) [⟨"m", true⟩] "/r" "ts").2
      "create.ts" "create".data (by decide) (by decide)
  exact h

/-- C3 fails as stated: the pairwise distinctness of (module, function) pairs
can break.  The two DISTINCT kept file names a.tsx.ts and ax.ts.ts both have
first occurrence of .ts before the end, and the first-occurrence replace
maps both to the function name ax.ts, so one discovery result carries the
pair (m, ax.ts) twice. -/
theorem c3_counterexample :
    (["a.tsx.ts", "ax.ts.ts"] : List String).Nodup ∧
    (getFunctionMap
        { root := some [⟨"m", true⟩],
          sub := fun _ => [⟨"a.tsx.ts", false⟩, ⟨"ax.ts.ts", false⟩] }
        "/r" "ts").map (fun l => l.map (fun mf => (mf.module, mf.function))) =
      Except.ok [("m", "ax.ts"), ("m", "ax.ts")] ∧
    ¬ ([("m", "ax.ts"), ("m", "ax.ts")] : List (String × String)).Nodup := by
  refine ⟨by decide, rfl, by decide⟩

/-- C3 (amended): discovery emits exactly one ModuleFunction per matching
file — the projection to (module, source file path) enumerates the matching
files of the module directories, in traversal order, with no duplicates and
no omissions — and this holds for every listing order; permuting the root
and per-module listings permutes the result.  The (module, function) pairs
are pairwise distinct PROVIDED the root listing and each module listing
carry distinct names and, for every kept file, the first occurrence of
. + extension in its name is its final suffix (the counterexample shows the
proviso is necessary). -/
theorem c3_discovery_exactly_one_per_file (sub : String → List Dirent)
    (entries : List Dirent) (rootPath ext : String) :
    ∃ l, getFunctionMap { root := some entries, sub := sub } rootPath ext = Except.ok l ∧
      l.map (fun mf => (mf.module, mf.paths.file)) =
        (entries.filter (fun item => item.isDir)).flatMap (fun m =>
          (matchingFiles sub ext m.name).map (fun f =>
            (m.name, relPath rootPath ("/src/modules/" ++ m.name ++ "/" ++ f.name)))) ∧
      ((entries.map Dirent.name).Nodup →
        (∀ m, ((sub m).map Dirent.name).Nodup) →
        (∀ m ∈ entries.filter (fun item => item.isDir),
          ∀ f ∈ matchingFiles sub ext m.name,
            jsReplaceFirst f.name ("." ++ ext) "" ++ ("." ++ ext) = f.name) →
        (l.map (fun mf => (mf.module, mf.function))).Nodup) ∧
      (∀ (entries2 : List Dirent) (sub2 : String → List Dirent),
        entries2.Perm entries → (∀ m, (sub2 m).Perm (sub m)) →
        ∃ l2, getFunctionMap { root := some entries2, sub := sub2 } rootPath ext =
            Except.ok l2 ∧ l2.Perm l) := by
  refine ⟨_, getFunctionMap_some sub entries rootPath ext, ?_, ?_, ?_⟩
  · simp [List.map_flatten, List.map_map, List.flatMap_def, Function.comp_def,
      discoveredEntry]
  · intro hroot hsub hsuffix
    rw [List.map_flatten, List.map_map]
    rw [List.nodup_flatten]
    constructor
    · intro inner hinner
      rw [List.mem_map] at hinner
      obtain ⟨m, hm, rfl⟩ := hinner
      simp only [Function.comp_apply, List.map_map]
      refine List.Nodup.map_on ?_ ?_
      · intro x hx y hy hxy
        simp only [Function.comp_apply, discoveredEntry, Prod.mk.injEq] at hxy
        have hname : x.name = y.name := by
          have e1 := hsuffix m hm x hx
          have e2 := hsuffix m hm y hy
          rw [← e1, ← e2, hxy.2]
        have hinj := List.inj_on_of_nodup_map (hsub m.name)
        exact hinj (List.mem_of_mem_filter (List.mem_of_mem_filter hx))
          (List.mem_of_mem_filter (List.mem_of_mem_filter hy)) hname
      · exact (((hsub m.name).of_map).filter _).filter _
    · rw [List.pairwise_map]
      have hd : ((entries.filter (fun item => item.isDir)).map Dirent.name).Nodup :=
        List.Nodup.sublist (List.Sublist.map _ (List.filter_sublist _)) hroot
      have hd2 : List.Pairwise (fun a b => a.name ≠ b.name)
          (entries.filter (fun item => item.isDir)) := List.pairwise_map.mp hd
      refine hd2.imp ?_
      intro a b hne x hxa hxb
      simp only [Function.comp_apply, List.map_map, List.mem_map] at hxa hxb
      obtain ⟨fa, _, rfl⟩ := hxa
      obtain ⟨fb, _, hEq⟩ := hxb
      simp only [Function.comp_apply, discoveredEntry, Prod.mk.injEq] at hEq
      exact hne hEq.1.symm
  · intro entries2 sub2 hperm hsubperm
    refine ⟨_, getFunctionMap_some sub2 entries2 rootPath ext, ?_⟩
    refine List.Perm.trans (((hperm.filter _).map _).flatten) ?_
    apply List.Perm.flatten_congr
    rw [List.forall₂_map_right_iff, List.forall₂_map_left_iff]
    refine List.forall₂_same.mpr (fun m hm => ?_)
    exact (((hsubperm m.name).filter _).filter _).map _

/-- Concrete instance of C3 (amended): for one module directory with two
ordinary files create.ts and delete.ts, discovery succeeds and the (module,
function) pairs are distinct. -/
theorem c3_discovery_exactly_one_per_file_witness :
    ∃ l, getFunctionMap
        { root := some [⟨"users", true⟩],
          sub := fun _ => [⟨"create.ts", false⟩, ⟨"delete.ts", false⟩] }
        "/r" "ts" = Except.ok l ∧
      (l.map (fun mf => (mf.module, mf.function))).Nodup := by
  obtain ⟨l, h1, h2, h3, h4⟩ := c3_discovery_exactly_one_per_file
    (fun _ => [⟨"create.ts", false⟩, ⟨"delete.ts", false⟩]) [⟨"users", true⟩] "/r" "ts"
  exact ⟨l, h1, h3 (by decide) (fun m => by decide) (by decide)⟩

/-- C9: for a module directory m holding exactly the files a.ts, a.js and
b.ts (in any listing order), discovery with extension ts returns exactly the
entries (m, a) and (m, b); a.js is excluded by the extension filter. -/
theorem c9_extension_filtering (l : List Dirent)
    (h : l.Perm [⟨"a.ts", false⟩, ⟨"a.js", false⟩, ⟨"b.ts", false⟩]) :
    ∃ res, getFunctionMap { root := some [⟨"m", true⟩], sub := fun _ => l } "/r" "ts" =
        Except.ok res ∧
      (res.map (fun mf => (mf.module, mf.function))).Perm [("m", "a"), ("m", "b")] := by
  refine ⟨_, getFunctionMap_some (fun _ => l) [⟨"m", true⟩] "/r" "ts", ?_⟩
  have hcalc : ((((List.filter (fun item => item.isDir) [(⟨"m", true⟩ : Dirent)]).map
      (fun m => (matchingFiles (fun _ => l) "ts" m.name).map
        (fun tsFile => discoveredEntry "/r" "ts" m.name tsFile.name))).flatten).map
      (fun mf => (mf.module, mf.function))) =
      ((l.filter (fun item => !item.isDir)).filter
        (fun item => jsEndsWith item.name ("." ++ "ts"))).map
        (fun f => (("m" : String), jsReplaceFirst f.name ("." ++ "ts") "")) := by
    simp [matchingFiles, discoveredEntry, List.map_map, Function.comp_def]
  rw [hcalc]
  have hp := ((h.filter (fun item => !item.isDir)).filter
      (fun item => jsEndsWith item.name ("." ++ "ts"))).map
      (fun f => (("m" : String), jsReplaceFirst f.name ("." ++ "ts") ""))
  have hev : ((([(⟨"a.ts", false⟩ : Dirent), ⟨"a.js", false⟩, ⟨"b.ts", false⟩].filter
      (fun item => !item.isDir)).filter
      (fun item => jsEndsWith item.name ("." ++ "ts"))).map
      (fun f => (("m" : String), jsReplaceFirst f.name ("." ++ "ts") ""))) =
      [("m", "a"), ("m", "b")] := by decide
  rw [hev] at hp
  exact hp

/-- Concrete instance of C9 at one specific listing order. -/
theorem c9_extension_filtering_witness :
    ∃ res, getFunctionMap
        { root := some [⟨"m", true⟩],
          sub := fun _ => [⟨"a.ts", false⟩, ⟨"a.js", false⟩, ⟨"b.ts", false⟩] }
        "/r" "ts" = Except.ok res ∧
      (res.map (fun mf => (mf.module, mf.function))).Perm [("m", "a"), ("m", "b")] :=
  c9_extension_filtering _ (List.Perm.refl _)

/-- C4 fails as stated for buildSiteDistributionFolder: that builder never
destructures the cmdish result tuple, so a non-zero exit of the pre-build
command does not fail the operation — with every command exiting with
status 1 the builder still completes successfully and also runs the build
command. -/
theorem c4_counterexample :
    (CmdEnv.mk (fun _ _ => 1)).exitCode "npm run gen" "/site" ≠ 0 ∧
    (buildSiteDistributionFolder ⟨fun _ _ => 1⟩ false "/site" "npm run gen"
        "npm run build").fst = Except.ok () ∧
    (buildSiteDistributionFolder ⟨fun _ _ => 1⟩ false "/site" "npm run gen"
        "npm run build").snd =
      [Step.run ("" ++ "npm run gen") "/site", Step.run ("" ++ "npm run build") "/site"] := by
  refine ⟨by decide, rfl, by decide⟩

/-- C4 (amended): in buildTypescriptLambdaZip a non-zero exit of the build
command fails the operation with the error carrying the command text and
exit status, and the archiving step is never reached: the trace stops at
the build command and contains no zip invocation, so no archive is produced
at the expected output path.  buildSiteDistributionFolder, by contrast,
ignores the exit statuses of its pre-build and build commands (see the
counterexample). -/
theorem c4_build_failure_stops_before_archive (env : CmdEnv) (useNvm : Bool)
    (root : String) (h : env.exitCode (tsBuildCommand useNvm) root ≠ 0) :
    (buildTypescriptLambdaZip env useNvm root).fst =
      Except.error (BuildError.buildCommandError (tsBuildCommand useNvm)
        (env.exitCode (tsBuildCommand useNvm) root)) ∧
    (buildTypescriptLambdaZip env useNvm root).snd =
      [Step.copy (root ++ "/package.json") (root ++ "/build" ++ "/package.json"),
       Step.run (tsBuildCommand useNvm) root] ∧
    Step.run (zipCommand (root ++ "/aws-lambda-api.zip")) (root ++ "/build") ∉
      (buildTypescriptLambdaZip env useNvm root).snd := by
  unfold buildTypescriptLambdaZip
  rw [if_pos h]
  refine ⟨rfl, rfl, ?_⟩
  intro hmem
  rcases List.mem_cons.mp hmem with h1 | hmem2
  · exact Step.noConfusion h1
  rcases List.mem_cons.mp hmem2 with h2 | h3
  · injection h2 with hc hw
    have hlen := congrArg String.length hw
    rw [String.length_append] at hlen
    have h6 : ("/build" : String).length = 6 := rfl
    omega
  · simp at h3

/-- Concrete instance of C4 (amended): with every command exiting with
status 2, the typescript bundle builder fails with the build command error
and never runs the zip command. -/
theorem c4_build_failure_stops_before_archive_witness :
    (buildTypescriptLambdaZip ⟨fun _ _ => 2⟩ false "/app").fst =
      Except.error (BuildError.buildCommandError (tsBuildCommand false) 2) ∧
    Step.run (zipCommand ("/app" ++ "/aws-lambda-api.zip")) ("/app" ++ "/build") ∉
      (buildTypescriptLambdaZip ⟨fun _ _ => 2⟩ false "/app").snd := by
  obtain ⟨h1, h2, h3⟩ :=
    c4_build_failure_stops_before_archive ⟨fun _ _ => 2⟩ false "/app" (by decide)
  exact ⟨h1, h3⟩

/-- C5: the code contradicts the claim.  Neither buildTypescriptLambdaZip
nor buildSourceZip consults the result of its zip command, so with an
environment in which the zip command exits with status 12 (and the build
command succeeds) the typescript builder still runs the zip command and
returns the archive path as a success, and buildSourceZip returns its
archive path under an environment in which every command fails. -/
theorem c5_zip_failure_returns_path :
    ((⟨fun c _ => if c = zipCommand ("/app" ++ "/aws-lambda-api.zip") then 12 else 0⟩ :
        CmdEnv).exitCode (zipCommand ("/app" ++ "/aws-lambda-api.zip"))
        ("/app" ++ "/build") = 12) ∧
    (buildTypescriptLambdaZip
        ⟨fun c _ => if c = zipCommand ("/app" ++ "/aws-lambda-api.zip") then 12 else 0⟩
        false "/app").fst = Except.ok ("/app" ++ "/aws-lambda-api.zip") ∧
    Step.run (zipCommand ("/app" ++ "/aws-lambda-api.zip")) ("/app" ++ "/build") ∈
      (buildTypescriptLambdaZip
        ⟨fun c _ => if c = zipCommand ("/app" ++ "/aws-lambda-api.zip") then 12 else 0⟩
        false "/app").snd ∧
    (buildSourceZip ⟨fun _ _ => 12⟩ "/pkg" "commands: \x7b\x7bcommand\x7d\x7d" "/src"
        "yarn build").fst = Except.ok ("/src" ++ "/source.zip") := by
  refine ⟨by decide, rfl, by decide, rfl⟩

end ExobasePulumi
